import Mathlib

/-
Verification of the type-identity model and compaction transform of
`src/type_id.rs` (crate `type-metadata`).

Strings are modelled as lists of characters (`Str`).  Fallible
constructors return `Except NamespaceError _`, mirroring Rust's
`Result<_, NamespaceError>`.  The `Registry` collaborator, the
`is_rust_identifier` predicate (from `utils.rs`) and the
serialization/deserialization of the compact form are not part of
`src/`; they are modelled from the spec and marked as such below.
-/

/-- Rust string slices are modelled as lists of characters. -/
abbrev Str := List Char

/-- Shorthand turning a Lean string literal into the `Str` model. -/
def chars (s : String) : Str := s.data

/-- Modelled from the spec: the identifier predicate of `utils.rs`
(`is_rust_identifier`), which is not under `src/`.  Spec 4.1: a valid
identifier is a non-empty string whose first character is an underscore
or an alphabetic character and whose every subsequent character is
alphanumeric or an underscore. -/
def is_rust_identifier (s : Str) : Bool :=
  match s with
  | [] => false
  | c :: rest => (c == '_' || c.isAlpha) && rest.all (fun ch => ch.isAlphanum || ch == '_')

/-- The error enum `NamespaceError` of `type_id.rs`. -/
inductive NamespaceError where
  | MissingSegments
  | InvalidIdentifier (segment : Nat)
deriving DecidableEq, Repr

/-- The struct `Namespace<MetaForm>` of `type_id.rs`: an ordered sequence
of string segments. -/
structure Namespace where
  segments : List Str
deriving DecidableEq, Repr

/-- Embedding of `Iterator::position`: the index of the first element
satisfying the predicate, scanning left to right. -/
def position {α : Type} (p : α → Bool) : List α → Option Nat
  | [] => none
  | x :: xs => if p x then some 0 else Option.map (fun n => n + 1) (position p xs)

/-- `Namespace::new` from `type_id.rs`: rejects an empty segment sequence
with `MissingSegments`, otherwise rejects the first segment failing
`is_rust_identifier` with `InvalidIdentifier`, otherwise succeeds with
the segments unchanged. -/
def Namespace.new (segments : List Str) : Except NamespaceError Namespace :=
  if segments.isEmpty then Except.error NamespaceError.MissingSegments
  else
    match position (fun seg => !is_rust_identifier seg) segments with
    | some err_at => Except.error (NamespaceError.InvalidIdentifier err_at)
    | none => Except.ok ⟨segments⟩

/-- Embedding of Rust `str::split` specialised to the two-character
separator of `from_module_path`: scans left to right, cutting at each
non-overlapping occurrence of two consecutive colons.  The accumulator
holds the characters of the current segment in reverse. -/
def splitColons : List Char → List Char → List (List Char)
  | [], acc => [acc.reverse]
  | [c], acc => [(c :: acc).reverse]
  | c1 :: c2 :: rest, acc =>
    if c1 = ':' ∧ c2 = ':' then acc.reverse :: splitColons rest []
    else splitColons (c2 :: rest) (c1 :: acc)

/-- `Namespace::from_module_path` from `type_id.rs`: splits the path on
the separator and delegates to `Namespace::new`. -/
def Namespace.from_module_path (module_path : Str) : Except NamespaceError Namespace :=
  Namespace.new (splitColons module_path [])

/-- `Namespace::prelude` from `type_id.rs`: the empty namespace,
constructed without any validation. -/
def Namespace.prelude : Namespace := ⟨[]⟩

/-- The enum `TypeIdPrimitive` of `type_id.rs`. -/
inductive TypeIdPrimitive where
  | Bool | Char | Str
  | U8 | U16 | U32 | U64 | U128
  | I8 | I16 | I32 | I64 | I128
  | PhantomData
deriving DecidableEq, Repr

/-- The enum `TypeId<MetaForm>` of `type_id.rs`, with the payload structs
`TypeIdCustom`, `TypeIdSlice`, `TypeIdArray` and `TypeIdTuple` flattened
into the corresponding constructors (field names kept).  Per spec 3, the
`MetaType` entries of `type_params`/`type_param` are type descriptions,
so they are modelled recursively as `TypeId` values. -/
inductive TypeId where
  | Custom (name : Str) (ns : Namespace) (type_params : List TypeId)
  | Slice (type_param : TypeId)
  | Array (len : Nat) (type_param : TypeId)
  | Tuple (type_params : List TypeId)
  | Primitive (primitive : TypeIdPrimitive)
deriving Repr

mutual

/-- Structural (field-wise, order-sensitive) equality test on `TypeId`,
the derived `PartialEq` of `type_id.rs`. -/
def TypeId.beq : TypeId → TypeId → Bool
  | .Custom n1 ns1 ps1, .Custom n2 ns2 ps2 =>
      decide (n1 = n2) && decide (ns1 = ns2) && TypeId.beqList ps1 ps2
  | .Slice t1, .Slice t2 => TypeId.beq t1 t2
  | .Array l1 t1, .Array l2 t2 => decide (l1 = l2) && TypeId.beq t1 t2
  | .Tuple ps1, .Tuple ps2 => TypeId.beqList ps1 ps2
  | .Primitive p1, .Primitive p2 => decide (p1 = p2)
  | _, _ => false

/-- Pointwise structural equality on lists of `TypeId`. -/
def TypeId.beqList : List TypeId → List TypeId → Bool
  | [], [] => true
  | x :: xs, y :: ys => TypeId.beq x y && TypeId.beqList xs ys
  | _, _ => false

end

/-- Modelled from the spec: `StringRef`, the opaque stable reference
returned by the Registry for an interned string (spec 6). -/
abbrev StringRef := Nat

/-- Modelled from the spec: `TypeRef`, the opaque stable reference
returned by the Registry for an interned type (spec 6). -/
abbrev TypeRef := Nat

/-- A ghost record of one Registry call, used to state how many registry
interactions a compaction performs and in which order. -/
inductive RegCall where
  | regStr (s : Str)
  | regTy (t : TypeId)

/-- Modelled from the spec: the `Registry` collaborator (not under
`src/`).  `strings` and `types` are the interning tables, assigning to
each distinct value the index of its first sight (spec 4.3); `trace` is
a ghost log of the calls made against this instance. -/
structure Registry where
  strings : List Str
  types : List TypeId
  trace : List RegCall

/-- Index of the first entry of the list equal (under `eq`) to `x`. -/
def findPos {α : Type} (eq : α → α → Bool) (x : α) : List α → Option Nat
  | [] => none
  | y :: ys => if eq y x then some 0 else Option.map (fun n => n + 1) (findPos eq x ys)

/-- Modelled from the spec: `Registry::register_string` (spec 4.3) —
returns the stable reference of the string, interning it at first
sight; equal string contents always yield the same reference. -/
def Registry.register_string (r : Registry) (s : Str) : StringRef × Registry :=
  match findPos (fun a b => decide (a = b)) s r.strings with
  | some i => (i, ⟨r.strings, r.types, r.trace ++ [RegCall.regStr s]⟩)
  | none => (r.strings.length, ⟨r.strings ++ [s], r.types, r.trace ++ [RegCall.regStr s]⟩)

/-- Modelled from the spec: `Registry::register_type` (spec 4.3) —
returns the stable reference of a whole `TypeId` subtree, interning it
at first sight; structurally equal subtrees always yield the same
reference. -/
def Registry.register_type (r : Registry) (t : TypeId) : TypeRef × Registry :=
  match findPos TypeId.beq t r.types with
  | some i => (i, ⟨r.strings, r.types, r.trace ++ [RegCall.regTy t]⟩)
  | none => (r.types.length, ⟨r.strings, r.types ++ [t], r.trace ++ [RegCall.regTy t]⟩)

/-- `Namespace<CompactForm>` of `type_id.rs`: segments replaced by
interned-string references. -/
structure NamespaceCompact where
  segments : List StringRef
deriving DecidableEq, Repr

/-- `TypeId<CompactForm>` of `type_id.rs`: every string field becomes a
`StringRef` and every referenced type becomes a `TypeRef`. -/
inductive TypeIdCompact where
  | Custom (name : StringRef) (ns : NamespaceCompact) (type_params : List TypeRef)
  | Slice (type_param : TypeRef)
  | Array (len : Nat) (type_param : TypeRef)
  | Tuple (type_params : List TypeRef)
  | Primitive (primitive : TypeIdPrimitive)
deriving DecidableEq, Repr

/-- Embedding of `.into_iter().map(|x| registry.register(x)).collect()`:
registers each element left to right, threading the registry state. -/
def registerAll {α β : Type} (f : Registry → α → β × Registry) :
    Registry → List α → List β × Registry
  | r, [] => ([], r)
  | r, x :: xs =>
    let p := f r x
    let q := registerAll f p.2 xs
    (p.1 :: q.1, q.2)

/-- `impl IntoCompact for Namespace` of `type_id.rs`: registers every
segment via `register_string`, in order. -/
def Namespace.into_compact (ns : Namespace) (r : Registry) : NamespaceCompact × Registry :=
  let p := registerAll Registry.register_string r ns.segments
  (⟨p.1⟩, p.2)

/-- `impl IntoCompact for TypeId` of `type_id.rs` (with the payload
structs' `into_compact` implementations inlined at the corresponding
constructors): variant dispatch; `Custom` registers its name, then its
namespace segments, then its type parameters; `Slice`/`Array` register
their element type; `Tuple` registers its elements in order;
`Primitive` is the identity and touches no registry state. -/
def TypeId.into_compact (t : TypeId) (r : Registry) : TypeIdCompact × Registry :=
  match t with
  | .Custom name ns type_params =>
    let pn := r.register_string name
    let pns := ns.into_compact pn.2
    let pp := registerAll Registry.register_type pns.2 type_params
    (.Custom pn.1 pns.1 pp.1, pp.2)
  | .Slice type_param =>
    let p := r.register_type type_param
    (.Slice p.1, p.2)
  | .Array len type_param =>
    let p := r.register_type type_param
    (.Array len p.1, p.2)
  | .Tuple type_params =>
    let p := registerAll Registry.register_type r type_params
    (.Tuple p.1, p.2)
  | .Primitive p => (.Primitive p, r)

/-- `r.le r'` states that the interning tables of `r'` extend those of
`r` (each table of `r` is an initial run of the corresponding table of
`r'`); the ghost trace is not constrained. -/
def Registry.le (r r' : Registry) : Prop :=
  (∃ l, r'.strings = r.strings ++ l) ∧ (∃ l, r'.types = r.types ++ l)

/-- A JSON-like value tree, the target of the modelled serialization. -/
inductive JsonValue where
  | str (s : Str)
  | num (n : Nat)
  | arr (xs : List JsonValue)
  | obj (fields : List (Str × JsonValue))

/-- Serialized name of a primitive tag, per the
`serde(rename_all = "lowercase")` attribute on `TypeIdPrimitive`. -/
def primSerName : TypeIdPrimitive → Str
  | .Bool => chars "bool"
  | .Char => chars "char"
  | .Str => chars "str"
  | .U8 => chars "u8"
  | .U16 => chars "u16"
  | .U32 => chars "u32"
  | .U64 => chars "u64"
  | .U128 => chars "u128"
  | .I8 => chars "i8"
  | .I16 => chars "i16"
  | .I32 => chars "i32"
  | .I64 => chars "i64"
  | .I128 => chars "i128"
  | .PhantomData => chars "phantomdata"

/-- Modelled from the spec: the primitive tag named by a serialized
string, the inverse of `primSerName` (no deserializer
exists under `src/`; spec 8 requires the round trip). -/
def primFromName (s : Str) : Option TypeIdPrimitive :=
  if s = chars "bool" then some .Bool
  else if s = chars "char" then some .Char
  else if s = chars "str" then some .Str
  else if s = chars "u8" then some .U8
  else if s = chars "u16" then some .U16
  else if s = chars "u32" then some .U32
  else if s = chars "u64" then some .U64
  else if s = chars "u128" then some .U128
  else if s = chars "i8" then some .I8
  else if s = chars "i16" then some .I16
  else if s = chars "i32" then some .I32
  else if s = chars "i64" then some .I64
  else if s = chars "i128" then some .I128
  else if s = chars "phantomdata" then some .PhantomData
  else none

/-- Serialization of a compacted namespace: `serde(transparent)` on
`Namespace`, so it is the plain sequence of its segment references. -/
def NamespaceCompact.serialize (ns : NamespaceCompact) : JsonValue :=
  .arr (ns.segments.map .num)

/-- Serialization of a compacted `TypeId`, following the serde
attributes of `type_id.rs`: an untagged union, with field names
`custom.name`/`custom.namespace`/`custom.params`, `array.len`/
`array.type`, `slice.type`, a plain sequence for `Tuple`, and the
lowercase tag name for `Primitive`. -/
def TypeIdCompact.serialize : TypeIdCompact → JsonValue
  | .Custom name ns type_params =>
    .obj [(chars "custom.name", .num name),
          (chars "custom.namespace", ns.serialize),
          (chars "custom.params", .arr (type_params.map .num))]
  | .Slice type_param => .obj [(chars "slice.type", .num type_param)]
  | .Array len type_param =>
    .obj [(chars "array.len", .num len), (chars "array.type", .num type_param)]
  | .Tuple type_params => .arr (type_params.map .num)
  | .Primitive p => .str (primSerName p)

/-- Reads back a serialized sequence of references. -/
def deserializeNums : List JsonValue → Option (List Nat)
  | [] => some []
  | .num n :: rest => Option.map (fun l => n :: l) (deserializeNums rest)
  | _ => none

/-- Modelled from the spec: deserialization of a compacted `TypeId`,
the inverse of the untagged serialization above, distinguishing the
variants by their shape and field names (no deserializer exists under
`src/`; spec 8 requires the round trip). -/
def TypeIdCompact.deserialize : JsonValue → Option TypeIdCompact
  | .str s => Option.map TypeIdCompact.Primitive (primFromName s)
  | .num _ => none
  | .arr xs => Option.map TypeIdCompact.Tuple (deserializeNums xs)
  | .obj [(k1, .num name), (k2, .arr segs), (k3, .arr ps)] =>
    if k1 = chars "custom.name" ∧ k2 = chars "custom.namespace" ∧ k3 = chars "custom.params" then
      match deserializeNums segs, deserializeNums ps with
      | some segments, some params => some (.Custom name ⟨segments⟩ params)
      | _, _ => none
    else none
  | .obj [(k, .num tp)] =>
    if k = chars "slice.type" then some (.Slice tp) else none
  | .obj [(k1, .num len), (k2, .num tp)] =>
    if k1 = chars "array.len" ∧ k2 = chars "array.type" then some (.Array len tp) else none
  | .obj _ => none

mutual

/-- `TypeId.beq` is structural equality (left to right and back). -/
theorem TypeId.beq_iff : (a b : TypeId) → (TypeId.beq a b = true ↔ a = b)
  | .Custom n1 ns1 ps1, .Custom n2 ns2 ps2 => by
      simp [TypeId.beq, TypeId.beqList_iff ps1 ps2, and_assoc]
  | .Custom _ _ _, .Slice _ => by simp [TypeId.beq]
  | .Custom _ _ _, .Array _ _ => by simp [TypeId.beq]
  | .Custom _ _ _, .Tuple _ => by simp [TypeId.beq]
  | .Custom _ _ _, .Primitive _ => by simp [TypeId.beq]
  | .Slice _, .Custom _ _ _ => by simp [TypeId.beq]
  | .Slice t1, .Slice t2 => by simp [TypeId.beq, TypeId.beq_iff t1 t2]
  | .Slice _, .Array _ _ => by simp [TypeId.beq]
  | .Slice _, .Tuple _ => by simp [TypeId.beq]
  | .Slice _, .Primitive _ => by simp [TypeId.beq]
  | .Array _ _, .Custom _ _ _ => by simp [TypeId.beq]
  | .Array _ _, .Slice _ => by simp [TypeId.beq]
  | .Array l1 t1, .Array l2 t2 => by simp [TypeId.beq, TypeId.beq_iff t1 t2]
  | .Array _ _, .Tuple _ => by simp [TypeId.beq]
  | .Array _ _, .Primitive _ => by simp [TypeId.beq]
  | .Tuple _, .Custom _ _ _ => by simp [TypeId.beq]
  | .Tuple _, .Slice _ => by simp [TypeId.beq]
  | .Tuple _, .Array _ _ => by simp [TypeId.beq]
  | .Tuple ps1, .Tuple ps2 => by simp [TypeId.beq, TypeId.beqList_iff ps1 ps2]
  | .Tuple _, .Primitive _ => by simp [TypeId.beq]
  | .Primitive _, .Custom _ _ _ => by simp [TypeId.beq]
  | .Primitive _, .Slice _ => by simp [TypeId.beq]
  | .Primitive _, .Array _ _ => by simp [TypeId.beq]
  | .Primitive _, .Tuple _ => by simp [TypeId.beq]
  | .Primitive p1, .Primitive p2 => by simp [TypeId.beq]

/-- `TypeId.beqList` is structural equality of lists. -/
theorem TypeId.beqList_iff : (l1 l2 : List TypeId) → (TypeId.beqList l1 l2 = true ↔ l1 = l2)
  | [], [] => by simp [TypeId.beqList]
  | [], _ :: _ => by simp [TypeId.beqList]
  | _ :: _, [] => by simp [TypeId.beqList]
  | x :: xs, y :: ys => by
      simp [TypeId.beqList, TypeId.beq_iff x y, TypeId.beqList_iff xs ys]

end

/-- Structural equality is reflexive under `TypeId.beq`. -/
theorem TypeId.beq_refl (t : TypeId) : TypeId.beq t t = true := (TypeId.beq_iff t t).mpr rfl

/-- `position` returns `none` exactly when no element satisfies the
predicate. -/
theorem position_eq_none_iff {α : Type} (p : α → Bool) :
    ∀ l : List α, position p l = none ↔ ∀ x ∈ l, p x = false
  | [] => by simp [position]
  | x :: xs => by
    cases hpx : p x with
    | true => simp [position, hpx]
    | false => simp [position, hpx, position_eq_none_iff p xs]

/-- `position` returns `some i` exactly when the element at index `i`
satisfies the predicate and no earlier element does. -/
theorem position_eq_some_iff {α : Type} [Inhabited α] (p : α → Bool) :
    ∀ (l : List α) (i : Nat), position p l = some i ↔
      (i < l.length ∧ p (l.getD i default) = true ∧
        ∀ j, j < i → p (l.getD j default) = false)
  | [], i => by simp [position]
  | x :: xs, i => by
    cases hpx : p x with
    | true =>
      cases i with
      | zero => simp [position, hpx]
      | succ n =>
        simp only [position, hpx, if_true]
        constructor
        · intro hc
          exact absurd hc (by simp)
        · rintro ⟨-, -, hall⟩
          have h0 := hall 0 (Nat.succ_pos n)
          rw [List.getD_cons_zero, hpx] at h0
          cases h0
    | false =>
      cases i with
      | zero => simp [position, hpx]
      | succ n =>
        have IH := position_eq_some_iff p xs n
        constructor
        · intro hc
          have hxs : position p xs = some n := by
            simp only [position, hpx] at hc
            simp only [Bool.false_eq_true, if_false] at hc
            rcases Option.map_eq_some'.mp hc with ⟨m, hm, hmi⟩
            have hmn : m = n := by omega
            rw [hmn] at hm
            exact hm
          rcases IH.mp hxs with ⟨h1, h2, h3⟩
          refine ⟨by simpa using Nat.succ_lt_succ h1, by simpa using h2, ?_⟩
          intro j hj
          cases j with
          | zero => simpa using hpx
          | succ m =>
            have := h3 m (by omega)
            simpa using this
        · rintro ⟨h1, h2, h3⟩
          have hxs : position p xs = some n := by
            refine IH.mpr ⟨by simpa using h1, by simpa using h2, ?_⟩
            intro j hj
            have := h3 (j + 1) (by omega)
            simpa using this
          simp [position, hpx, hxs]

/-- `Namespace.new` reports `MissingSegments` exactly on the empty
input. -/
theorem Namespace.new_missing_iff (segs : List Str) :
    Namespace.new segs = Except.error NamespaceError.MissingSegments ↔ segs = [] := by
  cases segs with
  | nil => simp [Namespace.new]
  | cons x xs =>
    cases hpos : position (fun seg => !is_rust_identifier seg) (x :: xs) with
    | none => simp [Namespace.new, hpos]
    | some i => simp [Namespace.new, hpos]

/-- `Namespace.new` reports `InvalidIdentifier i` exactly when the scan
for the first invalid segment returns `i`. -/
theorem Namespace.new_invalid_iff (segs : List Str) (i : Nat) :
    Namespace.new segs = Except.error (NamespaceError.InvalidIdentifier i) ↔
      position (fun seg => !is_rust_identifier seg) segs = some i := by
  cases segs with
  | nil => simp [Namespace.new, position]
  | cons x xs =>
    cases hpos : position (fun seg => !is_rust_identifier seg) (x :: xs) with
    | none => simp [Namespace.new, hpos]
    | some j => simp [Namespace.new, hpos]

/-- `Namespace.new` succeeds exactly on non-empty all-valid input, and
then returns the input segments unchanged. -/
theorem Namespace.new_ok_iff (segs : List Str) (ns : Namespace) :
    Namespace.new segs = Except.ok ns ↔
      (segs ≠ [] ∧ position (fun seg => !is_rust_identifier seg) segs = none ∧
        ns = ⟨segs⟩) := by
  cases segs with
  | nil => simp [Namespace.new]
  | cons x xs =>
    cases hpos : position (fun seg => !is_rust_identifier seg) (x :: xs) with
    | none => simp [Namespace.new, hpos, eq_comm]
    | some j => simp [Namespace.new, hpos]

/-- Splitting never produces an empty segment list: there is always at
least the segment being accumulated. -/
theorem splitColons_ne_nil : ∀ (s acc : List Char), splitColons s acc ≠ []
  | [], acc => by simp [splitColons]
  | [c], acc => by simp [splitColons]
  | c1 :: c2 :: rest, acc => by
    by_cases h : c1 = ':' ∧ c2 = ':'
    · simp [splitColons, h]
    · simpa [splitColons, h] using splitColons_ne_nil (c2 :: rest) (c1 :: acc)

/-- A successful `Namespace.new` never yields an empty segment
sequence. -/
theorem Namespace.new_ok_ne_nil (segs : List Str) (ns : Namespace)
    (h : Namespace.new segs = Except.ok ns) : ns.segments ≠ [] := by
  rw [Namespace.new_ok_iff] at h
  rcases h with ⟨h1, -, h3⟩
  rw [h3]
  simpa using h1

/-- Claim C1: for every non-empty sequence of strings in which every
segment satisfies the identifier predicate, `Namespace.new` returns
`Ok` with a namespace whose segment sequence equals the input sequence
(same order, same count). -/
theorem claim_C1 (segs : List Str) (hne : segs ≠ [])
    (hval : ∀ s ∈ segs, is_rust_identifier s = true) :
    Namespace.new segs = Except.ok ⟨segs⟩ := by
  rw [Namespace.new_ok_iff]
  refine ⟨hne, ?_, rfl⟩
  rw [position_eq_none_iff]
  intro x hx
  simp [hval x hx]

/-- Witness for C1: concrete non-empty valid input. -/
theorem claim_C1_witness :
    ([chars "hello", chars "world"] : List Str) ≠ [] ∧
    (∀ s ∈ ([chars "hello", chars "world"] : List Str), is_rust_identifier s = true) ∧
    Namespace.new [chars "hello", chars "world"] =
      Except.ok ⟨[chars "hello", chars "world"]⟩ :=
  ⟨by decide, by decide,
    claim_C1 [chars "hello", chars "world"] (by decide) (by decide)⟩

/-- Claim C2: `Namespace.new` fails with `MissingSegments` iff the
input is empty; it fails with `InvalidIdentifier i` iff `i` is the
lowest index of a segment failing the identifier predicate (left to
right scan, even when several segments are invalid); and it succeeds
in every other case, i.e. exactly when the input is non-empty and all
segments are valid. -/
theorem claim_C2 (segs : List Str) :
    (Namespace.new segs = Except.error NamespaceError.MissingSegments ↔ segs = []) ∧
    (∀ i : Nat, Namespace.new segs = Except.error (NamespaceError.InvalidIdentifier i) ↔
      (i < segs.length ∧ is_rust_identifier (segs.getD i []) = false ∧
        ∀ j, j < i → is_rust_identifier (segs.getD j []) = true)) ∧
    ((∃ ns, Namespace.new segs = Except.ok ns) ↔
      (segs ≠ [] ∧ ∀ s ∈ segs, is_rust_identifier s = true)) := by
  refine ⟨Namespace.new_missing_iff segs, ?_, ?_⟩
  · intro i
    rw [Namespace.new_invalid_iff, position_eq_some_iff]
    simp only [Bool.not_eq_true', Bool.not_eq_false']
    exact Iff.rfl
  · constructor
    · rintro ⟨ns, hns⟩
      rw [Namespace.new_ok_iff] at hns
      rcases hns with ⟨h1, h2, -⟩
      refine ⟨h1, ?_⟩
      intro s hs
      have := (position_eq_none_iff _ segs).mp h2 s hs
      simpa using this
    · rintro ⟨h1, h2⟩
      refine ⟨⟨segs⟩, (Namespace.new_ok_iff segs ⟨segs⟩).mpr ⟨h1, ?_, rfl⟩⟩
      rw [position_eq_none_iff]
      intro x hx
      simp [h2 x hx]

/-- Witness for C2: the first offending index is reported even when a
later segment is also invalid. -/
theorem claim_C2_witness :
    Namespace.new [chars "Hello", chars ", World!"] =
      Except.error (NamespaceError.InvalidIdentifier 1) :=
  ((claim_C2 [chars "Hello", chars ", World!"]).2.1 1).mpr (by decide)

/-- Claim C3: the identifier predicate accepts exactly the non-empty
strings whose first character is an underscore or alphabetic and whose
subsequent characters are alphanumeric or underscores; in particular
`new ["_"]` succeeds while `new ["1"]` and `new [""]` fail with
`InvalidIdentifier 0`. -/
theorem claim_C3 :
    (∀ s : Str, is_rust_identifier s = true ↔
      (s ≠ [] ∧ (s.headI = '_' ∨ s.headI.isAlpha = true) ∧
        ∀ c ∈ s.tail, (c.isAlphanum = true ∨ c = '_'))) ∧
    Namespace.new [chars "_"] = Except.ok ⟨[chars "_"]⟩ ∧
    Namespace.new [chars "1"] = Except.error (NamespaceError.InvalidIdentifier 0) ∧
    Namespace.new [chars ""] = Except.error (NamespaceError.InvalidIdentifier 0) := by
  refine ⟨?_, rfl, rfl, rfl⟩
  intro s
  cases s with
  | nil => simp [is_rust_identifier]
  | cons c cs => simp [is_rust_identifier, List.all_eq_true]

/-- Witness for C3: a concrete identifier exercising all three
character classes. -/
theorem claim_C3_witness : is_rust_identifier (chars "_a1") = true :=
  (claim_C3.1 (chars "_a1")).mpr (by decide)

/-- Claim C4: `from_module_path` equals `new` applied to the segments
obtained by splitting the path on the two-character separator; the
documented examples, including the leading empty segment produced by a
leading separator. -/
theorem claim_C4 :
    (∀ path : Str, Namespace.from_module_path path = Namespace.new (splitColons path [])) ∧
    Namespace.from_module_path (chars "hello::world") =
      Namespace.new [chars "hello", chars "world"] ∧
    Namespace.from_module_path (chars "hello::world") =
      Except.ok ⟨[chars "hello", chars "world"]⟩ ∧
    splitColons (chars "::world") [] = [[], chars "world"] ∧
    Namespace.from_module_path (chars "::world") =
      Except.error (NamespaceError.InvalidIdentifier 0) :=
  ⟨fun _ => rfl, rfl, rfl, rfl, rfl⟩

/-- Claim C5: `prelude` returns a namespace with zero segments and
bypasses validation (it cannot fail); it is the only construction path
yielding an empty segment sequence, since `new` (and hence
`from_module_path`) never returns an empty namespace. -/
theorem claim_C5 :
    Namespace.prelude.segments = [] ∧
    (∀ (segs : List Str) (ns : Namespace),
      Namespace.new segs = Except.ok ns → ns.segments ≠ []) ∧
    (∀ (path : Str) (ns : Namespace),
      Namespace.from_module_path path = Except.ok ns → ns.segments ≠ []) :=
  ⟨rfl, Namespace.new_ok_ne_nil,
    fun path ns h => Namespace.new_ok_ne_nil (splitColons path []) ns h⟩

/-- Witness for C5: the implication is exercised at a concrete
successful construction. -/
theorem claim_C5_witness :
    Namespace.prelude.segments = [] ∧
    (Namespace.mk [chars "hello"]).segments ≠ [] :=
  ⟨claim_C5.1, claim_C5.2.1 [chars "hello"] ⟨[chars "hello"]⟩ rfl⟩

/-- Claim C10: `from_module_path` can never report `MissingSegments`,
because splitting any string yields at least one segment; the empty
path yields one empty segment and so fails with
`InvalidIdentifier 0`. -/
theorem claim_C10 :
    (∀ path : Str,
      Namespace.from_module_path path ≠ Except.error NamespaceError.MissingSegments) ∧
    Namespace.from_module_path [] = Except.error (NamespaceError.InvalidIdentifier 0) := by
  refine ⟨?_, rfl⟩
  intro path h
  have := (Namespace.new_missing_iff (splitColons path [])).mp h
  exact splitColons_ne_nil path [] this

/-- Witness for C10: the no-`MissingSegments` guarantee at a concrete
path. -/
theorem claim_C10_witness :
    Namespace.from_module_path (chars "hello::world") ≠
      Except.error NamespaceError.MissingSegments :=
  claim_C10.1 (chars "hello::world")

/-- The compacted list has exactly one entry per input entry. -/
theorem registerAll_length {α β : Type} (f : Registry → α → β × Registry) :
    ∀ (l : List α) (r : Registry), ((registerAll f r l).1).length = l.length
  | [], _ => rfl
  | x :: xs, r => by
    simp [registerAll, registerAll_length f xs]

/-- `register_string` logs exactly one registry call. -/
theorem register_string_trace (r : Registry) (s : Str) :
    ((r.register_string s).2).trace = r.trace ++ [RegCall.regStr s] := by
  cases h : findPos (fun a b => decide (a = b)) s r.strings with
  | none => simp [Registry.register_string, h]
  | some i => simp [Registry.register_string, h]

/-- `register_type` logs exactly one registry call. -/
theorem register_type_trace (r : Registry) (t : TypeId) :
    ((r.register_type t).2).trace = r.trace ++ [RegCall.regTy t] := by
  cases h : findPos TypeId.beq t r.types with
  | none => simp [Registry.register_type, h]
  | some i => simp [Registry.register_type, h]

/-- A `registerAll` run logs exactly one registry call per element, in
input order. -/
theorem registerAll_trace {α β : Type} (f : Registry → α → β × Registry) (g : α → RegCall)
    (hf : ∀ (r : Registry) (x : α), ((f r x).2).trace = r.trace ++ [g x]) :
    ∀ (l : List α) (r : Registry), ((registerAll f r l).2).trace = r.trace ++ l.map g
  | [], r => by simp [registerAll]
  | x :: xs, r => by
    simp [registerAll, registerAll_trace f g hf xs, hf]

/-- Claim C6: `into_compact` is structure-preserving — the compacted
result has the same variant tag as the source, a `Tuple` keeps the same
number of elements in the same order, a `Custom` keeps the same number
of type parameters and namespace segments in the same order (the
compact fields are pinned to the exact left-to-right threaded
registration of the source fields), an `Array` keeps its `len` field
unchanged, and a `Primitive` compacts to the identical tag with no
registry interaction (the registry is returned untouched). -/
theorem claim_C6 (r : Registry) :
    (∀ p, TypeId.into_compact (TypeId.Primitive p) r = (TypeIdCompact.Primitive p, r)) ∧
    (∀ len tp, (TypeId.into_compact (TypeId.Array len tp) r).1 =
      TypeIdCompact.Array len ((r.register_type tp).1)) ∧
    (∀ tp, (TypeId.into_compact (TypeId.Slice tp) r).1 =
      TypeIdCompact.Slice ((r.register_type tp).1)) ∧
    (∀ ps, (TypeId.into_compact (TypeId.Tuple ps) r).1 =
        TypeIdCompact.Tuple ((registerAll Registry.register_type r ps).1) ∧
      ((registerAll Registry.register_type r ps).1).length = ps.length) ∧
    (∀ name ns ps,
      (TypeId.into_compact (TypeId.Custom name ns ps) r).1 =
        TypeIdCompact.Custom ((r.register_string name).1)
          ⟨(registerAll Registry.register_string
            ((r.register_string name).2) ns.segments).1⟩
          ((registerAll Registry.register_type
            ((ns.into_compact ((r.register_string name).2)).2) ps).1) ∧
      ((registerAll Registry.register_string
          ((r.register_string name).2) ns.segments).1).length = ns.segments.length ∧
      ((registerAll Registry.register_type
          ((ns.into_compact ((r.register_string name).2)).2) ps).1).length = ps.length) := by
  refine ⟨fun p => rfl, fun len tp => rfl, fun tp => rfl,
    fun ps => ⟨rfl, registerAll_length _ ps r⟩, ?_⟩
  intro name ns ps
  exact ⟨rfl, registerAll_length _ ns.segments _, registerAll_length _ ps _⟩

/-- Claim C7: compacting a `Custom` registers the name via
`register_string`, replaces each namespace segment by the result of
`register_string` in original order, and replaces each type parameter
by the result of `register_type` in declared order; the ghost trace
shows exactly one registry call per string and per type parameter, in
that order. -/
theorem claim_C7 (name : Str) (ns : Namespace) (type_params : List TypeId) (r : Registry) :
    (TypeId.into_compact (TypeId.Custom name ns type_params) r).1 =
      TypeIdCompact.Custom ((r.register_string name).1)
        ((ns.into_compact ((r.register_string name).2)).1)
        ((registerAll Registry.register_type
          ((ns.into_compact ((r.register_string name).2)).2) type_params).1) ∧
    ((ns.into_compact ((r.register_string name).2)).1).segments =
      (registerAll Registry.register_string ((r.register_string name).2) ns.segments).1 ∧
    (((ns.into_compact ((r.register_string name).2)).1).segments).length =
      ns.segments.length ∧
    ((registerAll Registry.register_type
        ((ns.into_compact ((r.register_string name).2)).2) type_params).1).length =
      type_params.length ∧
    ((TypeId.into_compact (TypeId.Custom name ns type_params) r).2).trace =
      r.trace ++ [RegCall.regStr name] ++ ns.segments.map RegCall.regStr ++
        type_params.map RegCall.regTy := by
  refine ⟨rfl, rfl, registerAll_length _ _ _, registerAll_length _ _ _, ?_⟩
  have h1 := register_string_trace r name
  have h2 := registerAll_trace Registry.register_string RegCall.regStr
    register_string_trace ns.segments ((r.register_string name).2)
  have h3 := registerAll_trace Registry.register_type RegCall.regTy
    register_type_trace type_params ((ns.into_compact ((r.register_string name).2)).2)
  show ((registerAll Registry.register_type
    ((ns.into_compact ((r.register_string name).2)).2) type_params).2).trace = _
  rw [h3]
  show ((registerAll Registry.register_string ((r.register_string name).2)
    ns.segments).2).trace ++ type_params.map RegCall.regTy = _
  rw [h2, h1]

/-- Table extension is reflexive. -/
theorem Registry.le_refl (r : Registry) : Registry.le r r :=
  ⟨⟨[], by simp⟩, ⟨[], by simp⟩⟩

/-- Table extension is transitive. -/
theorem Registry.le_trans {r1 r2 r3 : Registry} (h1 : Registry.le r1 r2)
    (h2 : Registry.le r2 r3) : Registry.le r1 r3 := by
  rcases h1 with ⟨⟨a, ha⟩, ⟨b, hb⟩⟩
  rcases h2 with ⟨⟨c, hc⟩, ⟨d, hd⟩⟩
  exact ⟨⟨a ++ c, by rw [hc, ha, List.append_assoc]⟩,
    ⟨b ++ d, by rw [hd, hb, List.append_assoc]⟩⟩

/-- Table extension only looks at the tables: a registry with the same
tables as the target extends the same registries. -/
theorem Registry.le_congr {r1 r2 r3 : Registry} (h : Registry.le r1 r2)
    (hs : r3.strings = r2.strings) (ht : r3.types = r2.types) : Registry.le r1 r3 := by
  rcases h with ⟨⟨a, ha⟩, ⟨b, hb⟩⟩
  exact ⟨⟨a, by rw [hs, ha]⟩, ⟨b, by rw [ht, hb]⟩⟩

/-- A hit in the table is preserved by appending entries: the first
occurrence keeps its index. -/
theorem findPos_append {α : Type} (eq : α → α → Bool) (x : α) :
    ∀ (l m : List α) (i : Nat), findPos eq x l = some i → findPos eq x (l ++ m) = some i
  | [], m, i => by simp [findPos]
  | y :: ys, m, i => by
    cases hy : eq y x with
    | true => simp [findPos, hy]
    | false =>
      simp only [List.cons_append, findPos, hy, Bool.false_eq_true, if_false]
      intro h
      rcases Option.map_eq_some'.mp h with ⟨n, hn, hni⟩
      exact Option.map_eq_some'.mpr ⟨n, findPos_append eq x ys m n hn, hni⟩

/-- An element missing from the table is found at the end after being
appended, at the index equal to the old table length. -/
theorem findPos_append_self {α : Type} (eq : α → α → Bool) (x : α) (hx : eq x x = true) :
    ∀ l : List α, findPos eq x l = none → findPos eq x (l ++ [x]) = some l.length
  | [] => by
    intro h
    simp [findPos, hx]
  | y :: ys => by
    intro h
    cases hy : eq y x with
    | true => simp [findPos, hy] at h
    | false =>
      simp only [findPos, hy, Bool.false_eq_true, if_false, Option.map_eq_none'] at h
      have hr := findPos_append_self eq x hx ys h
      show findPos eq x (y :: (ys ++ [x])) = some (y :: ys).length
      simp [findPos, hy, hr]

/-- Registering a string only ever appends to the tables. -/
theorem register_string_le (r : Registry) (s : Str) :
    Registry.le r ((r.register_string s).2) := by
  cases h : findPos (fun a b => decide (a = b)) s r.strings with
  | some i =>
    exact ⟨⟨[], by simp [Registry.register_string, h]⟩,
      ⟨[], by simp [Registry.register_string, h]⟩⟩
  | none =>
    exact ⟨⟨[s], by simp [Registry.register_string, h]⟩,
      ⟨[], by simp [Registry.register_string, h]⟩⟩

/-- Registering a type only ever appends to the tables. -/
theorem register_type_le (r : Registry) (t : TypeId) :
    Registry.le r ((r.register_type t).2) := by
  cases h : findPos TypeId.beq t r.types with
  | some i =>
    exact ⟨⟨[], by simp [Registry.register_type, h]⟩,
      ⟨[], by simp [Registry.register_type, h]⟩⟩
  | none =>
    exact ⟨⟨[], by simp [Registry.register_type, h]⟩,
      ⟨[t], by simp [Registry.register_type, h]⟩⟩

/-- After registering a string, the string table locates it at the
returned reference. -/
theorem register_string_found (r : Registry) (s : Str) :
    findPos (fun a b => decide (a = b)) s (((r.register_string s).2).strings) =
      some ((r.register_string s).1) := by
  cases h : findPos (fun a b => decide (a = b)) s r.strings with
  | some i => simp [Registry.register_string, h]
  | none =>
    have := findPos_append_self (fun a b => decide (a = b)) s (by simp) r.strings h
    simpa [Registry.register_string, h] using this

/-- After registering a type, the type table locates it at the returned
reference. -/
theorem register_type_found (r : Registry) (t : TypeId) :
    findPos TypeId.beq t (((r.register_type t).2).types) =
      some ((r.register_type t).1) := by
  cases h : findPos TypeId.beq t r.types with
  | some i => simp [Registry.register_type, h]
  | none =>
    have := findPos_append_self TypeId.beq t (TypeId.beq_refl t) r.types h
    simpa [Registry.register_type, h] using this

/-- Deduplication contract for strings: registering an already-seen
string against any extension of the registry returns the original
reference and leaves the tables unchanged. -/
theorem register_string_stable (r r' : Registry) (s : Str)
    (hle : Registry.le ((r.register_string s).2) r') :
    (r'.register_string s).1 = (r.register_string s).1 ∧
    ((r'.register_string s).2).strings = r'.strings ∧
    ((r'.register_string s).2).types = r'.types := by
  rcases hle with ⟨⟨a, ha⟩, -⟩
  have hf : findPos (fun a b => decide (a = b)) s r'.strings =
      some ((r.register_string s).1) := by
    rw [ha]
    exact findPos_append _ s _ a _ (register_string_found r s)
  refine ⟨?_, ?_, ?_⟩ <;> simp [Registry.register_string, hf]

/-- Deduplication contract for types: registering an already-seen type
subtree against any extension of the registry returns the original
reference and leaves the tables unchanged. -/
theorem register_type_stable (r r' : Registry) (t : TypeId)
    (hle : Registry.le ((r.register_type t).2) r') :
    (r'.register_type t).1 = (r.register_type t).1 ∧
    ((r'.register_type t).2).strings = r'.strings ∧
    ((r'.register_type t).2).types = r'.types := by
  rcases hle with ⟨-, ⟨b, hb⟩⟩
  have hf : findPos TypeId.beq t r'.types = some ((r.register_type t).1) := by
    rw [hb]
    exact findPos_append _ t _ b _ (register_type_found r t)
  refine ⟨?_, ?_, ?_⟩ <;> simp [Registry.register_type, hf]

/-- A `registerAll` run only ever appends to the tables. -/
theorem registerAll_le {α β : Type} (f : Registry → α → β × Registry)
    (hle : ∀ (r : Registry) (x : α), Registry.le r ((f r x).2)) :
    ∀ (l : List α) (r : Registry), Registry.le r ((registerAll f r l).2)
  | [], r => Registry.le_refl r
  | x :: xs, r => by
    simp only [registerAll]
    exact Registry.le_trans (hle r x) (registerAll_le f hle xs ((f r x).2))

/-- Deduplication contract lifted to `registerAll`: re-running a
registration list against any extension of its own final state returns
the same references and leaves the tables unchanged. -/
theorem registerAll_stable {α β : Type} (f : Registry → α → β × Registry)
    (hle : ∀ (r : Registry) (x : α), Registry.le r ((f r x).2))
    (hst : ∀ (r r' : Registry) (x : α), Registry.le ((f r x).2) r' →
      (f r' x).1 = (f r x).1 ∧ ((f r' x).2).strings = r'.strings ∧
        ((f r' x).2).types = r'.types) :
    ∀ (l : List α) (r r' : Registry), Registry.le ((registerAll f r l).2) r' →
      (registerAll f r' l).1 = (registerAll f r l).1 ∧
      ((registerAll f r' l).2).strings = r'.strings ∧
      ((registerAll f r' l).2).types = r'.types
  | [], r, r', _ => ⟨rfl, rfl, rfl⟩
  | x :: xs, r, r', h => by
    have h' : Registry.le ((registerAll f ((f r x).2) xs).2) r' := by
      simpa [registerAll] using h
    have hxle : Registry.le ((f r x).2) r' :=
      Registry.le_trans (registerAll_le f hle xs ((f r x).2)) h'
    rcases hst r r' x hxle with ⟨e1, e2, e3⟩
    have hxsle : Registry.le ((registerAll f ((f r x).2) xs).2) ((f r' x).2) :=
      Registry.le_congr h' e2 e3
    rcases registerAll_stable f hle hst xs ((f r x).2) ((f r' x).2) hxsle with ⟨g1, g2, g3⟩
    refine ⟨?_, ?_, ?_⟩
    · simp only [registerAll]
      rw [e1, g1]
    · simp only [registerAll]
      rw [g2, e2]
    · simp only [registerAll]
      rw [g3, e3]

/-- Compacting a namespace only ever appends to the tables. -/
theorem ns_into_compact_le (ns : Namespace) (r : Registry) :
    Registry.le r ((ns.into_compact r).2) :=
  registerAll_le Registry.register_string register_string_le ns.segments r

/-- Re-compacting a namespace against any extension of its own final
state yields the same compact namespace and leaves the tables
unchanged. -/
theorem ns_into_compact_stable (ns : Namespace) (r r' : Registry)
    (h : Registry.le ((ns.into_compact r).2) r') :
    (ns.into_compact r').1 = (ns.into_compact r).1 ∧
    ((ns.into_compact r').2).strings = r'.strings ∧
    ((ns.into_compact r').2).types = r'.types := by
  rcases registerAll_stable Registry.register_string register_string_le
    register_string_stable ns.segments r r' h with ⟨g1, g2, g3⟩
  exact ⟨by simp [Namespace.into_compact, g1], g2, g3⟩

/-- Compacting a type identifier only ever appends to the tables. -/
theorem into_compact_le (t : TypeId) (r : Registry) :
    Registry.le r ((TypeId.into_compact t r).2) := by
  cases t with
  | Custom name ns ps =>
    exact Registry.le_trans (register_string_le r name)
      (Registry.le_trans (ns_into_compact_le ns ((r.register_string name).2))
        (registerAll_le Registry.register_type register_type_le ps
          ((ns.into_compact ((r.register_string name).2)).2)))
  | Slice tp => exact register_type_le r tp
  | Array len tp => exact register_type_le r tp
  | Tuple ps => exact registerAll_le Registry.register_type register_type_le ps r
  | Primitive p => exact Registry.le_refl r

/-- Re-compacting a type identifier against any extension of its own
final state yields the same compact value and leaves the tables
unchanged. -/
theorem into_compact_stable (t : TypeId) (r r' : Registry)
    (h : Registry.le ((TypeId.into_compact t r).2) r') :
    (TypeId.into_compact t r').1 = (TypeId.into_compact t r).1 ∧
    ((TypeId.into_compact t r').2).strings = r'.strings ∧
    ((TypeId.into_compact t r').2).types = r'.types := by
  cases t with
  | Primitive p => exact ⟨rfl, rfl, rfl⟩
  | Slice tp =>
    rcases register_type_stable r r' tp h with ⟨e1, e2, e3⟩
    exact ⟨by simp [TypeId.into_compact, e1], e2, e3⟩
  | Array len tp =>
    rcases register_type_stable r r' tp h with ⟨e1, e2, e3⟩
    exact ⟨by simp [TypeId.into_compact, e1], e2, e3⟩
  | Tuple ps =>
    rcases registerAll_stable Registry.register_type register_type_le
      register_type_stable ps r r' h with ⟨g1, g2, g3⟩
    exact ⟨by simp [TypeId.into_compact, g1], g2, g3⟩
  | Custom name ns ps =>
    have hns_le : Registry.le ((ns.into_compact ((r.register_string name).2)).2)
        ((TypeId.into_compact (TypeId.Custom name ns ps) r).2) :=
      registerAll_le Registry.register_type register_type_le ps
        ((ns.into_compact ((r.register_string name).2)).2)
    have hstr_le : Registry.le (((r.register_string name)).2)
        ((TypeId.into_compact (TypeId.Custom name ns ps) r).2) :=
      Registry.le_trans (ns_into_compact_le ns ((r.register_string name).2)) hns_le
    rcases register_string_stable r r' name (Registry.le_trans hstr_le h) with ⟨e1, e2, e3⟩
    rcases ns_into_compact_stable ns ((r.register_string name).2)
      ((r'.register_string name).2)
      (Registry.le_congr (Registry.le_trans hns_le h) e2 e3) with ⟨f1, f2, f3⟩
    rcases registerAll_stable Registry.register_type register_type_le
      register_type_stable ps ((ns.into_compact ((r.register_string name).2)).2)
      ((ns.into_compact ((r'.register_string name).2)).2)
      (Registry.le_congr h (f2.trans e2) (f3.trans e3)) with ⟨g1, g2, g3⟩
    refine ⟨?_, ?_, ?_⟩
    · show TypeIdCompact.Custom ((r'.register_string name).1)
        ((ns.into_compact ((r'.register_string name).2)).1)
        ((registerAll Registry.register_type
          ((ns.into_compact ((r'.register_string name).2)).2) ps).1) = _
      rw [e1, f1, g1]
      rfl
    · show ((registerAll Registry.register_type
        ((ns.into_compact ((r'.register_string name).2)).2) ps).2).strings = r'.strings
      rw [g2, f2, e2]
    · show ((registerAll Registry.register_type
        ((ns.into_compact ((r'.register_string name).2)).2) ps).2).types = r'.types
      rw [g3, f3, e3]

/-- Claim C8: against the modelled Registry (which satisfies the
deduplication contract by construction), compacting a second,
structurally equal `TypeId` value through the registry state produced
by a first compaction yields the identical compact result, and interns
nothing new — the tables are unchanged by the second pass. -/
theorem claim_C8 (t : TypeId) (r : Registry) :
    (TypeId.into_compact t ((TypeId.into_compact t r).2)).1 =
      (TypeId.into_compact t r).1 ∧
    ((TypeId.into_compact t ((TypeId.into_compact t r).2)).2).strings =
      ((TypeId.into_compact t r).2).strings ∧
    ((TypeId.into_compact t ((TypeId.into_compact t r).2)).2).types =
      ((TypeId.into_compact t r).2).types :=
  into_compact_stable t r ((TypeId.into_compact t r).2)
    (Registry.le_refl ((TypeId.into_compact t r).2))

/-- A serialized sequence of references reads back unchanged. -/
theorem deserializeNums_map : ∀ l : List Nat, deserializeNums (l.map JsonValue.num) = some l
  | [] => rfl
  | n :: rest => by simp [deserializeNums, deserializeNums_map rest]

/-- Every primitive tag survives the lowercase-name round trip. -/
theorem primFromName_serName (p : TypeIdPrimitive) : primFromName (primSerName p) = some p := by
  cases p <;> rfl

/-- Claim C9: serializing a compacted `TypeId` through the documented
field-naming convention (`custom.name`, `custom.namespace`,
`custom.params`, `array.len`, `array.type`, `slice.type`, `Tuple` as a
plain sequence, lowercase primitive tags) and deserializing it
reconstructs a value equal to the original. -/
theorem claim_C9 (c : TypeIdCompact) :
    TypeIdCompact.deserialize (TypeIdCompact.serialize c) = some c := by
  cases c with
  | Custom name ns ps =>
    obtain ⟨segments⟩ := ns
    simp [TypeIdCompact.serialize, NamespaceCompact.serialize,
      TypeIdCompact.deserialize, deserializeNums_map]
  | Slice tp => simp [TypeIdCompact.serialize, TypeIdCompact.deserialize]
  | Array len tp => simp [TypeIdCompact.serialize, TypeIdCompact.deserialize]
  | Tuple ps =>
    simp [TypeIdCompact.serialize, TypeIdCompact.deserialize, deserializeNums_map]
  | Primitive p =>
    simp [TypeIdCompact.serialize, TypeIdCompact.deserialize, primFromName_serName p]
